import Mathlib

set_option maxRecDepth 8000

/-!
Verification of the LiteX-M2SDR RF utility (`software/user/m2sdr_rf.c`).

The development shallowly embeds:
- the PRBS delay-scan selection algorithm of `m2sdr_init`
  (the nested loops over `rx_valid_delays` / `tx_valid_delays` and the
  run-length maximisation, lines 255-273 and 320-338 of the source);
- the sequence of hardware operations performed by `m2sdr_init` as an
  event trace (facade calls, CSR accesses, SPI register writes);
- the `spi_write_then_read` transfer-shape dispatch.

Pure values (`int`, `uint32_t`, ...) are embedded as `Nat`/`Int`; the
hardware PRBS-lock responses observed during a scan are abstracted as a
`SyncGrid` parameter (the scan records exactly those responses, so the
recorded array equals the parameter).  Register addresses and bit-field
macros that live in headers outside the repository snapshot are modelled
from the spec where noted.
-/

namespace M2sdrRf

/-- A 16x16 grid of PRBS synchronization results, indexed by
(clock delay, data delay).  Mirrors `rx_valid_delays` / `tx_valid_delays`
(`m2sdr_rf.c` lines 219-220, 250, 315): entry `1` is rendered as `true`. -/
abbrev SyncGrid := Fin 16 → Fin 16 → Bool

/-- Total accessor for a grid row: data-delay indices `≥ 16` read as
`false`, matching the `i < 16` guard of the run-length loop. -/
def cell (g : SyncGrid) (c : Fin 16) (i : Nat) : Bool :=
  if h : i < 16 then g c ⟨i, h⟩ else false

/-- Fuel-indexed version of the run-length loop
`for (int i = dat; i < 16 && grid[clk][i] == 1; i++) valid_count++;`
(`m2sdr_rf.c` lines 263-265 and 328-330). -/
def runLenAux (g : SyncGrid) (c : Fin 16) : Nat → Nat → Nat
  | _, 0 => 0
  | i, fuel + 1 =>
    if h : i < 16 then
      if g c ⟨i, h⟩ then runLenAux g c (i + 1) fuel + 1 else 0
    else 0

/-- `valid_count` computed by the inner loop when started at data delay `i`
on clock-delay row `c`: the number of consecutive `true` cells from `i`
rightwards (not wrapping past column 15). -/
def runLenFrom (g : SyncGrid) (c : Fin 16) (i : Nat) : Nat :=
  runLenAux g c i (16 - i)

/-- State of the optimal-delay search: `optimal_*_clk_delay`,
`optimal_*_dat_delay` (sentinel `-1`) and `max_valid_delays`
(`m2sdr_rf.c` lines 256-257 and 321-322; the C `int` counter is never
negative, so it is embedded as `Nat`). -/
structure OptState where
  clk : Int
  dat : Int
  maxValid : Nat
deriving DecidableEq

/-- Initial search state: `optimal = (-1, -1)`, `max_valid_delays = 0`. -/
def initState : OptState := { clk := -1, dat := -1, maxValid := 0 }

/-- Body of the selection loops (`m2sdr_rf.c` lines 261-271 / 326-336):
at a `true` cell whose rightward run `valid_count` strictly exceeds the
maximum seen so far, record the row, the centered data delay
`dat + valid_count / 2`, and the new maximum. -/
def stepCell (g : SyncGrid) (st : OptState) (c d : Fin 16) : OptState :=
  if g c d then
    if runLenFrom g c d.val > st.maxValid then
      { clk := (c.val : Int)
        dat := ((d.val + runLenFrom g c d.val / 2 : Nat) : Int)
        maxValid := runLenFrom g c d.val }
    else st
  else st

/-- The full selection scan (`m2sdr_rf.c` lines 259-273 / 324-338):
row-major fold of `stepCell` over all 256 cells. -/
def findOptimal (g : SyncGrid) : OptState :=
  (List.finRange 16).foldl
    (fun st c => (List.finRange 16).foldl (fun st d => stepCell g st c d) st)
    initState

/-- Row-major scan order of the 256 grid cells. -/
def scanOrder : List (Fin 16 × Fin 16) :=
  (List.finRange 16).flatMap (fun c => (List.finRange 16).map (fun d => (c, d)))

/-- Value of a cell for the search: the rightward run length there. -/
def cellVal (g : SyncGrid) (c d : Fin 16) : Nat :=
  runLenFrom g c d.val

/-- Strict row-major order on grid coordinates. -/
def scanlt (p q : Fin 16 × Fin 16) : Prop :=
  p.1 < q.1 ∨ (p.1 = q.1 ∧ p.2 < q.2)

/-- A maximal contiguous run of `true` cells along the data-delay axis:
`l ≥ 1` cells starting at column `s` of row `c`, bounded by a `false`
cell (or the grid edge) on both sides.  This is the spec's `ValidRun`. -/
def IsRun (g : SyncGrid) (c : Fin 16) (s l : Nat) : Prop :=
  1 ≤ l ∧ (∀ k, k < l → cell g c (s + k) = true) ∧
    (s = 0 ∨ cell g c (s - 1) = false) ∧ cell g c (s + l) = false

instance (g : SyncGrid) (c : Fin 16) (s l : Nat) : Decidable (IsRun g c s l) := by
  unfold IsRun; infer_instance

/-- Scan-order comparison of run positions: `(C, S)` comes no later than
`(c, s)` in the row-major scan. -/
def scanFirst (C : Fin 16) (S : Nat) (c : Fin 16) (s : Nat) : Prop :=
  C.val < c.val ∨ (C.val = c.val ∧ S ≤ s)

instance (C : Fin 16) (S : Nat) (c : Fin 16) (s : Nat) :
    Decidable (scanFirst C S c s) := by
  unfold scanFirst; infer_instance

/-! ### Hardware-operation events

Each statement of `m2sdr_init` that acts on the hardware (directly or
through the transceiver facade) is embedded as one event; the trace of a
run is the list of events in program order.  A read of the
`keep_running` flag would be embedded as `checkKeepRunning`; the source
of `m2sdr_init` (and of the scan loops inside it) contains no such read,
so no definition below emits it. -/

inductive Event where
  | openDev : Event
  | i2cConfig : Event
  | spiInit : Event
  | rficInit : Event
  | setTxSamplingFreq : Nat → Event
  | setRxSamplingFreq : Nat → Event
  | setRxRfBandwidth : Int → Event
  | setTxRfBandwidth : Int → Event
  | setTxLoFreq : Int → Event
  | setRxLoFreq : Int → Event
  | setTxFirConfig : Event
  | setRxFirConfig : Event
  | setTxAtten : Int → Event
  | setRxRfGain : Nat → Int → Event
  | bistLoopback : Nat → Event
  | bistTone : Nat → Int → Event
  | bistPrbs : Nat → Event
  | csrWrite : Nat → Nat → Event
  | csrRead : Nat → Event
  | spiWrite : Nat → Int → Event
  | mdelay : Nat → Event
  | msgOptimal : Bool → Int → Int → Event
  | msgNotFound : Bool → Event
  | checkKeepRunning : Event
  | closeDev : Event
deriving DecidableEq

/-- Modelled from the spec: the AD9361 RX clock/data delay register
(`REG_RX_CLOCK_DATA_DELAY`, declared in the AD9361 headers which are not
part of this repository snapshot); the spec only requires it to be the
RX-direction delay register, distinct from the TX one. -/
def REG_RX_CLOCK_DATA_DELAY : Nat := 0x006

/-- Modelled from the spec: the AD9361 TX clock/data delay register
(`REG_TX_CLOCK_DATA_DELAY`), distinct from the RX one. -/
def REG_TX_CLOCK_DATA_DELAY : Nat := 0x007

/-- Modelled from the spec: the CSR address of the FPGA TX-PRBS control
register (`CSR_AD9361_PRBS_TX_ADDR`). -/
def CSR_AD9361_PRBS_TX_ADDR : Nat := 0x9000

/-- Modelled from the spec: the CSR address of the FPGA PRBS checker
status register (`CSR_AD9361_PRBS_RX_ADDR`). -/
def CSR_AD9361_PRBS_RX_ADDR : Nat := 0x9004

/-- Modelled from the spec: the CSR address of the bit-mode register
(`CSR_AD9361_BITMODE_ADDR`). -/
def CSR_AD9361_BITMODE_ADDR : Nat := 0x9008

/-- Modelled from the spec: the CSR address of the PHY control register
(`CSR_AD9361_PHY_CONTROL_ADDR`). -/
def CSR_AD9361_PHY_CONTROL_ADDR : Nat := 0x900c

/-- Modelled from the spec: bit offset of the TX-PRBS enable flag
(`CSR_AD9361_PRBS_TX_ENABLE_OFFSET`). -/
def CSR_AD9361_PRBS_TX_ENABLE_OFFSET : Nat := 0

/-- Modelled from the spec: the AD9361 BIST injection-point selector for
the TX path (`BIST_INJ_TX` of the AD9361 driver enum). -/
def BIST_INJ_TX : Nat := 1

/-- Modelled from the spec: the AD9361 BIST injection-point selector for
the RX path (`BIST_INJ_RX`). -/
def BIST_INJ_RX : Nat := 2

/-- Modelled from the spec: the combined delay word
`DATA_CLK_DELAY(clk) | RX_DATA_DELAY(dat)` (macros from the AD9361
header): clock delay in the high nibble, data delay in the low nibble;
for the in-range arguments used here the bit-or is plain addition. -/
def delayWord (clk dat : Int) : Int := 16 * clk + dat

/-- The 256 probe steps of one delay scan (`m2sdr_rf.c` lines 235-253 /
300-318): per cell, write the combined delay word to the direction's
delay register, settle 10 ms, read the PRBS checker status CSR. -/
def probeEvents (reg : Nat) : List Event :=
  ((scanOrder.map (fun p =>
    [Event.spiWrite reg (delayWord p.1.val p.2.val),
     Event.mdelay 10,
     Event.csrRead CSR_AD9361_PRBS_RX_ADDR])).flatten)

/-- Result reporting (`m2sdr_rf.c` lines 276-280 / 341-345): print the
optimal pair if both sentinels were replaced, else the
no-valid-settings diagnostic. -/
def reportEvents (isTx : Bool) (st : OptState) : List Event :=
  if st.clk ≠ -1 ∧ st.dat ≠ -1 then
    [Event.msgOptimal isTx st.clk st.dat]
  else
    [Event.msgNotFound isTx]

/-- Commit of the optimal setting (`m2sdr_rf.c` lines 283-285 / 348-350):
write the optimal delay word back to the delay register, only when an
optimal setting was found. -/
def commitEvents (reg : Nat) (st : OptState) : List Event :=
  if st.clk ≠ -1 ∧ st.dat ≠ -1 then
    [Event.spiWrite reg (delayWord st.clk st.dat)]
  else
    []

/-- One full delay-scan engine run for one direction: probe all 256
cells (recording the grid `g` of observed lock bits), select, report,
commit. -/
def delayScanTrace (reg : Nat) (isTx : Bool) (g : SyncGrid) : List Event :=
  probeEvents reg ++ reportEvents isTx (findOptimal g) ++
    commitEvents reg (findOptimal g)

/-- The PRBS calibration block (`m2sdr_rf.c` lines 217-351), entered when
`bist_prbs` is set: disable the FPGA TX-PRBS, enable AD9361 RX-PRBS
injection, run the RX scan, enable the AD9361 RX→TX loopback, enable the
FPGA TX-PRBS, run the TX scan.  `rxGrid` / `txGrid` are the PRBS-lock
responses observed by the two scans. -/
def prbsCalibrationTrace (rxGrid txGrid : SyncGrid) : List Event :=
  [Event.csrWrite CSR_AD9361_PRBS_TX_ADDR
     (0 * (1 <<< CSR_AD9361_PRBS_TX_ENABLE_OFFSET)),
   Event.bistPrbs BIST_INJ_RX]
  ++ delayScanTrace REG_RX_CLOCK_DATA_DELAY false rxGrid
  ++ [Event.bistLoopback 1,
      Event.csrWrite CSR_AD9361_PRBS_TX_ADDR
        (1 * (1 <<< CSR_AD9361_PRBS_TX_ENABLE_OFFSET))]
  ++ delayScanTrace REG_TX_CLOCK_DATA_DELAY true txGrid

/-- The fixed oversampling register-override recipe
(`m2sdr_rf.c` lines 372-404). -/
def oversampleEvents : List Event :=
  [Event.spiWrite 0x003 0x54,
   Event.spiWrite 0x02 0xc0,
   Event.spiWrite 0xc2 0x9f,
   Event.spiWrite 0xc3 0x9f,
   Event.spiWrite 0xc4 0x9f,
   Event.spiWrite 0xc5 0x9f,
   Event.spiWrite 0xc6 0x9f,
   Event.spiWrite 0xc7 0x00,
   Event.spiWrite 0xc8 0x00,
   Event.spiWrite 0xc9 0x00,
   Event.spiWrite 0x1e0 0xBF,
   Event.spiWrite 0x1e4 0xFF,
   Event.spiWrite 0x1f2 0xFF,
   Event.spiWrite 0x1e7 0x00,
   Event.spiWrite 0x1e8 0x00,
   Event.spiWrite 0x1e9 0x00,
   Event.spiWrite 0x1ea 0x00,
   Event.spiWrite 0x1eb 0x00,
   Event.spiWrite 0x1ec 0x00,
   Event.spiWrite 0x1ed 0x00,
   Event.spiWrite 0x1ee 0x00,
   Event.spiWrite 0x1ef 0x00,
   Event.spiWrite 0x1e0 0xBF,
   Event.spiWrite 0x3f6 0x03]

/-- The parameters of `m2sdr_init` (`m2sdr_rf.c` lines 113-128).
`samplerate` embeds the `uint32_t` parameter (value `< 2^32`); the
signed 64/32-bit parameters are embedded as `Int`. -/
structure RfConfig where
  samplerate : Nat
  bandwidth : Int
  refclk_freq : Int
  tx_freq : Int
  rx_freq : Int
  tx_gain : Int
  rx_gain : Int
  loopback : Nat
  bist_tx_tone : Bool
  bist_rx_tone : Bool
  bist_prbs : Bool
  bist_tone_freq : Int
  enable_8bit_mode : Bool
  enable_oversample : Bool
deriving DecidableEq

/-- The sample rate handed to `ad9361_set_tx_sampling_freq` and
`ad9361_set_rx_sampling_freq`: `m2sdr_rf.c` lines 155-156 halve the
local `samplerate` (unsigned division) before both calls when
oversampling is enabled. -/
def programmedSamplerate (cfg : RfConfig) : Nat :=
  if cfg.enable_oversample then cfg.samplerate / 2 else cfg.samplerate

/-- The unconditional configuration prefix of `m2sdr_init`
(`m2sdr_rf.c` lines 131-202), in program order.  The PHY-control write
is the default (2T2R) branch of the `_1T1R_MODE` conditional
compilation. -/
def configEvents (cfg : RfConfig) : List Event :=
  [Event.openDev,
   Event.i2cConfig,
   Event.spiInit,
   Event.rficInit,
   Event.setTxSamplingFreq (programmedSamplerate cfg),
   Event.setRxSamplingFreq (programmedSamplerate cfg),
   Event.setRxRfBandwidth cfg.bandwidth,
   Event.setTxRfBandwidth cfg.bandwidth,
   Event.setTxLoFreq cfg.tx_freq,
   Event.setRxLoFreq cfg.rx_freq,
   Event.setTxFirConfig,
   Event.setRxFirConfig,
   Event.setTxAtten (-cfg.tx_gain * 1000),
   Event.setRxRfGain 0 cfg.rx_gain,
   Event.setRxRfGain 1 cfg.rx_gain,
   Event.bistLoopback cfg.loopback,
   Event.csrWrite CSR_AD9361_BITMODE_ADDR (if cfg.enable_8bit_mode then 1 else 0),
   Event.csrWrite CSR_AD9361_PHY_CONTROL_ADDR 0]

/-- The full hardware-operation trace of one successful `m2sdr_init` run
(`m2sdr_rf.c` lines 113-408; device open assumed to succeed). -/
def m2sdrInitTrace (cfg : RfConfig) (rxGrid txGrid : SyncGrid) : List Event :=
  configEvents cfg
  ++ (if cfg.bist_tx_tone then [Event.bistTone BIST_INJ_TX cfg.bist_tone_freq] else [])
  ++ (if cfg.bist_rx_tone then [Event.bistTone BIST_INJ_RX cfg.bist_tone_freq] else [])
  ++ (if cfg.bist_prbs then prbsCalibrationTrace rxGrid txGrid else [])
  ++ (if cfg.enable_oversample then oversampleEvents else [])
  ++ [Event.closeDev]

/-- The initial value of the `keep_running` flag (`m2sdr_rf.c` line 37). -/
def keepRunningInit : Nat := 1

/-- The signal handler `intHandler` (`m2sdr_rf.c` lines 39-41): ignores
its argument and the previous flag value, and sets the flag to 0. -/
def intHandler (_dummy : Int) (_keep_running : Nat) : Nat := 0

/-- Outcome of one `spi_write_then_read` call. -/
inductive SpiOutcome where
  | spiRead : Nat → SpiOutcome
  | spiWriteOp : Nat → Nat → SpiOutcome
  | procExit : Nat → SpiOutcome
deriving DecidableEq

/-- `spi_write_then_read` (`m2sdr_rf.c` lines 50-77): device-open
failure exits with status 1; shape `(n_tx, n_rx) = (2, 1)` performs a
register read at address `txbuf[0] << 8 | txbuf[1]`; shape `(3, 0)`
performs a register write of `txbuf[2]` to that address; every other
shape prints the unsupported-transfer diagnostic and exits with
status 1. -/
def spi_write_then_read (openOk : Bool) (txbuf : List Nat)
    (n_tx n_rx : Nat) : SpiOutcome :=
  if openOk = false then SpiOutcome.procExit 1
  else if n_tx = 2 ∧ n_rx = 1 then
    SpiOutcome.spiRead ((txbuf.getD 0 0) <<< 8 ||| txbuf.getD 1 0)
  else if n_tx = 3 ∧ n_rx = 0 then
    SpiOutcome.spiWriteOp ((txbuf.getD 0 0) <<< 8 ||| txbuf.getD 1 0) (txbuf.getD 2 0)
  else SpiOutcome.procExit 1

/-- Events that reconfigure the PRBS/loopback test topology:
FPGA TX-PRBS control CSR writes, AD9361 BIST-PRBS selection, AD9361
loopback selection. -/
def isPrbsControl (e : Event) : Bool :=
  match e with
  | Event.csrWrite a _ => a == CSR_AD9361_PRBS_TX_ADDR
  | Event.bistPrbs _ => true
  | Event.bistLoopback _ => true
  | _ => false

/-- The sample rates passed to the TX sampling-frequency operation, in
order of occurrence. -/
def txRatesOf (tr : List Event) : List Nat :=
  tr.filterMap (fun e => match e with
    | Event.setTxSamplingFreq v => some v
    | _ => none)

/-- The sample rates passed to the RX sampling-frequency operation, in
order of occurrence. -/
def rxRatesOf (tr : List Event) : List Nat :=
  tr.filterMap (fun e => match e with
    | Event.setRxSamplingFreq v => some v
    | _ => none)

/-- The attenuation values passed to the TX attenuation operation, in
order of occurrence. -/
def attenValsOf (tr : List Event) : List Int :=
  tr.filterMap (fun e => match e with
    | Event.setTxAtten v => some v
    | _ => none)

/-- One step of tracking the content of SPI register `reg`: an SPI write
to `reg` replaces the tracked value, every other event leaves it. -/
def lastWriteStep (reg : Nat) (acc : Option Int) (e : Event) : Option Int :=
  match e with
  | Event.spiWrite r v => if r = reg then some v else acc
  | _ => acc

/-- The value left in the SPI register `reg` by a trace: the payload of
the last SPI write to `reg`, if any. -/
def lastDelayWrite (reg : Nat) (tr : List Event) : Option Int :=
  tr.foldl (lastWriteStep reg) none

/-! ### Concrete values used by the witnesses -/

/-- Grid with a single `true` cell at row 2, column 7. -/
def gridSingle : SyncGrid := fun c d => c.val == 2 && d.val == 7

/-- Grid whose unique maximal run is row 5, columns 3-9 (length 7): the
end-to-end scenario of the spec. -/
def gridRow5 : SyncGrid := fun c d =>
  c.val == 5 && (decide (3 ≤ d.val) && decide (d.val ≤ 9))

/-- Grid with two length-5 runs: row 3 columns 2-6 and row 9 columns
0-4 (the spec's tie-break example). -/
def gridTie : SyncGrid := fun c d =>
  (c.val == 3 && (decide (2 ≤ d.val) && decide (d.val ≤ 6))) ||
    (c.val == 9 && decide (d.val ≤ 4))

/-- The all-`false` grid. -/
def gridNone : SyncGrid := fun _ _ => false

/-- A sample configuration requesting the PRBS BIST. -/
def cfgPrbs : RfConfig :=
  { samplerate := 30720000
    bandwidth := 56000000
    refclk_freq := 38400000
    tx_freq := 2400000000
    rx_freq := 2400000000
    tx_gain := 10
    rx_gain := 20
    loopback := 0
    bist_tx_tone := false
    bist_rx_tone := false
    bist_prbs := true
    bist_tone_freq := 1000000
    enable_8bit_mode := false
    enable_oversample := false }

/-- A sample configuration with oversampling enabled and an odd sample
rate. -/
def cfgOversample : RfConfig :=
  { cfgPrbs with
    samplerate := 61440001
    enable_oversample := true
    bist_prbs := false }

/-! ### Run-length lemmas -/

theorem cell_lt16 {g : SyncGrid} {c : Fin 16} {i : Nat}
    (h : cell g c i = true) : i < 16 := by
  by_contra hi
  unfold cell at h
  rw [dif_neg hi] at h
  simp at h

theorem cell_fin (g : SyncGrid) (c d : Fin 16) : cell g c d.val = g c d := by
  unfold cell
  rw [dif_pos d.isLt]

theorem runLenFrom_eq (g : SyncGrid) (c : Fin 16) (i : Nat) :
    runLenFrom g c i = if cell g c i then runLenFrom g c (i + 1) + 1 else 0 := by
  by_cases h : i < 16
  · have h16 : 16 - i = (16 - (i + 1)) + 1 := by omega
    unfold runLenFrom
    rw [h16]
    simp only [runLenAux]
    rw [dif_pos h]
    unfold cell
    rw [dif_pos h]
  · unfold runLenFrom
    have h16 : 16 - i = 0 := by omega
    have h16' : 16 - (i + 1) = 0 := by omega
    rw [h16, h16']
    simp only [runLenAux]
    unfold cell
    rw [dif_neg h]
    simp

theorem cell_true_of_lt_runLen (g : SyncGrid) (c : Fin 16) :
    ∀ k i, k < runLenFrom g c i → cell g c (i + k) = true := by
  intro k
  induction k with
  | zero =>
    intro i h
    rw [runLenFrom_eq] at h
    by_cases hc : cell g c i = true
    · simpa using hc
    · rw [if_neg hc] at h
      omega
  | succ k ih =>
    intro i h
    rw [runLenFrom_eq] at h
    by_cases hc : cell g c i = true
    · rw [if_pos hc] at h
      have := ih (i + 1) (by omega)
      rw [show i + (k + 1) = (i + 1) + k by omega]
      exact this
    · rw [if_neg hc] at h
      omega

theorem cell_false_at_runLen (g : SyncGrid) (c : Fin 16) :
    ∀ n i, runLenFrom g c i = n → cell g c (i + n) = false := by
  intro n
  induction n with
  | zero =>
    intro i h
    rw [runLenFrom_eq] at h
    by_cases hc : cell g c i = true
    · rw [if_pos hc] at h
      omega
    · simpa using (Bool.not_eq_true _).mp hc
  | succ n ih =>
    intro i h
    rw [runLenFrom_eq] at h
    by_cases hc : cell g c i = true
    · rw [if_pos hc] at h
      have := ih (i + 1) (by omega)
      rw [show i + (n + 1) = (i + 1) + n by omega]
      exact this
    · rw [if_neg hc] at h
      omega

theorem runLen_pos_of_cell (g : SyncGrid) (c : Fin 16) (i : Nat)
    (h : cell g c i = true) : 1 ≤ runLenFrom g c i := by
  rw [runLenFrom_eq, if_pos h]
  omega

theorem exists_runStart (g : SyncGrid) (c : Fin 16) :
    ∀ i, cell g c i = true →
      ∃ s, s ≤ i ∧ cell g c s = true ∧ (s = 0 ∨ cell g c (s - 1) = false) ∧
        runLenFrom g c s = (i - s) + runLenFrom g c i := by
  intro i
  induction i with
  | zero =>
    intro h
    exact ⟨0, Nat.le_refl 0, h, Or.inl rfl, by simp⟩
  | succ i ih =>
    intro h
    by_cases hc : cell g c i = true
    · obtain ⟨s, hs, hcs, hstart, hrl⟩ := ih hc
      refine ⟨s, by omega, hcs, hstart, ?_⟩
      have hstep : runLenFrom g c i = runLenFrom g c (i + 1) + 1 := by
        rw [runLenFrom_eq, if_pos hc]
      omega
    · refine ⟨i + 1, Nat.le_refl _, h, Or.inr ?_, by omega⟩
      simpa using (Bool.not_eq_true _).mp hc

theorem isRun_of_start (g : SyncGrid) (c : Fin 16) (s : Nat)
    (h1 : cell g c s = true) (h2 : s = 0 ∨ cell g c (s - 1) = false) :
    IsRun g c s (runLenFrom g c s) :=
  ⟨runLen_pos_of_cell g c s h1,
   fun k hk => cell_true_of_lt_runLen g c k s hk,
   h2,
   cell_false_at_runLen g c _ s rfl⟩

theorem runLen_of_isRun (g : SyncGrid) (c : Fin 16) (s l : Nat)
    (h : IsRun g c s l) : runLenFrom g c s = l := by
  obtain ⟨hl, hin, _, hend⟩ := h
  have key : ∀ j, j ≤ l → runLenFrom g c (s + (l - j)) = j := by
    intro j
    induction j with
    | zero =>
      intro _
      rw [runLenFrom_eq]
      rw [if_neg (by simp [hend])]
    | succ j ih =>
      intro hj
      have hcell : cell g c (s + (l - (j + 1))) = true := hin _ (by omega)
      rw [runLenFrom_eq, if_pos hcell]
      rw [show s + (l - (j + 1)) + 1 = s + (l - j) by omega, ih (by omega)]
  have := key l (Nat.le_refl l)
  simpa using this

theorem isRun_bounds (g : SyncGrid) (c : Fin 16) (s l : Nat)
    (h : IsRun g c s l) : s < 16 ∧ s + l ≤ 16 := by
  obtain ⟨hl, hin, _, _⟩ := h
  have h0 : cell g c (s + 0) = true := hin 0 (by omega)
  have hlast : cell g c (s + (l - 1)) = true := hin (l - 1) (by omega)
  have hb0 := cell_lt16 h0
  have hb1 := cell_lt16 hlast
  constructor <;> omega

theorem cellVal_le (g : SyncGrid) (L : Nat)
    (hmax : ∀ (c : Fin 16) (s l : Nat), IsRun g c s l → l ≤ L) :
    ∀ (c d : Fin 16), cellVal g c d ≤ L := by
  intro c d
  unfold cellVal
  by_cases hc : cell g c d.val = true
  · obtain ⟨s, hs, hcs, hstart, hrl⟩ := exists_runStart g c d.val hc
    have hrun := isRun_of_start g c s hcs hstart
    have := hmax c s _ hrun
    omega
  · have h0 : runLenFrom g c d.val = 0 := by rw [runLenFrom_eq, if_neg hc]
    omega

theorem isRun_bounded_iff (g : SyncGrid) (P : Fin 16 → Nat → Nat → Prop) :
    (∀ (c : Fin 16) (s l : Nat), IsRun g c s l → P c s l) ↔
      ∀ (c s : Fin 16) (l : Fin 17), IsRun g c s.val l.val → P c s.val l.val := by
  constructor
  · intro h c s l hr
    exact h c s.val l.val hr
  · intro h c s l hr
    have hb := isRun_bounds g c s l hr
    exact h c ⟨s, hb.1⟩ ⟨l, by omega⟩ hr

/-! ### Selection-fold lemmas -/

theorem exists_first_max {α : Type} (v : α → Nat) :
    ∀ l : List α, l ≠ [] →
      ∃ l₁ a l₂, l = l₁ ++ a :: l₂ ∧ (∀ p ∈ l₁, v p < v a) ∧
        ∀ p ∈ l₂, v p ≤ v a := by
  intro l
  induction l with
  | nil => intro h; exact absurd rfl h
  | cons x xs ih =>
    intro _
    by_cases hxs : xs = []
    · subst hxs
      exact ⟨[], x, [], rfl, by simp, by simp⟩
    · obtain ⟨l₁, a, l₂, heq, h₁, h₂⟩ := ih hxs
      by_cases hx : v a ≤ v x
      · refine ⟨[], x, xs, rfl, by simp, ?_⟩
        intro p hp
        rw [heq] at hp
        rcases List.mem_append.mp hp with hp | hp
        · exact Nat.le_trans (Nat.le_of_lt (h₁ p hp)) hx
        · rcases List.mem_cons.mp hp with rfl | hp
          · exact hx
          · exact Nat.le_trans (h₂ p hp) hx
      · refine ⟨x :: l₁, a, l₂, by rw [heq]; rfl, ?_, h₂⟩
        intro p hp
        rcases List.mem_cons.mp hp with rfl | hp
        · omega
        · exact h₁ p hp

theorem stepCell_eq (g : SyncGrid) (st : OptState) (c d : Fin 16) :
    stepCell g st c d =
      if cellVal g c d > st.maxValid then
        { clk := (c.val : Int)
          dat := ((d.val + cellVal g c d / 2 : Nat) : Int)
          maxValid := cellVal g c d }
      else st := by
  by_cases hg : g c d = true
  · simp [stepCell, cellVal, hg]
  · have h0 : runLenFrom g c d.val = 0 := by
      rw [runLenFrom_eq, cell_fin, if_neg hg]
    simp [stepCell, cellVal, hg, h0]

theorem foldl_step_no_update (g : SyncGrid) :
    ∀ (l : List (Fin 16 × Fin 16)) (st : OptState),
      (∀ p ∈ l, cellVal g p.1 p.2 ≤ st.maxValid) →
      l.foldl (fun st p => stepCell g st p.1 p.2) st = st := by
  intro l
  induction l with
  | nil => intro st _; rfl
  | cons x xs ih =>
    intro st h
    have hx := h x (List.mem_cons_self x xs)
    rw [List.foldl_cons]
    have hst : stepCell g st x.1 x.2 = st := by
      rw [stepCell_eq, if_neg (by omega)]
    rw [hst]
    exact ih st fun p hp => h p (List.mem_cons_of_mem _ hp)

theorem foldl_step_maxValid_lt (g : SyncGrid) (M : Nat) :
    ∀ (l : List (Fin 16 × Fin 16)) (st : OptState),
      st.maxValid < M → (∀ p ∈ l, cellVal g p.1 p.2 < M) →
      (l.foldl (fun st p => stepCell g st p.1 p.2) st).maxValid < M := by
  intro l
  induction l with
  | nil => intro st h _; exact h
  | cons x xs ih =>
    intro st h hall
    rw [List.foldl_cons]
    refine ih _ ?_ fun p hp => hall p (List.mem_cons_of_mem _ hp)
    rw [stepCell_eq]
    by_cases hc : cellVal g x.1 x.2 > st.maxValid
    · rw [if_pos hc]
      exact hall x (List.mem_cons_self x xs)
    · rw [if_neg hc]
      exact h

theorem foldl_step_first_max (g : SyncGrid) (l₁ l₂ : List (Fin 16 × Fin 16))
    (a : Fin 16 × Fin 16) (st : OptState)
    (h₁ : ∀ p ∈ l₁, cellVal g p.1 p.2 < cellVal g a.1 a.2)
    (h₂ : ∀ p ∈ l₂, cellVal g p.1 p.2 ≤ cellVal g a.1 a.2)
    (hst : st.maxValid < cellVal g a.1 a.2) :
    (l₁ ++ a :: l₂).foldl (fun st p => stepCell g st p.1 p.2) st =
      { clk := (a.1.val : Int)
        dat := ((a.2.val + cellVal g a.1 a.2 / 2 : Nat) : Int)
        maxValid := cellVal g a.1 a.2 } := by
  rw [List.foldl_append, List.foldl_cons]
  have hmid := foldl_step_maxValid_lt g (cellVal g a.1 a.2) l₁ st hst h₁
  rw [stepCell_eq, if_pos hmid]
  exact foldl_step_no_update g l₂ _ fun p hp => h₂ p hp

theorem foldl_nested {α β γ : Type} (f : α → β → γ → α) :
    ∀ (lc : List β) (ld : List γ) (init : α),
      lc.foldl (fun st c => ld.foldl (fun st d => f st c d) st) init =
        (lc.flatMap fun c => ld.map fun d => (c, d)).foldl
          (fun st p => f st p.1 p.2) init := by
  intro lc
  induction lc with
  | nil => intro ld init; rfl
  | cons c lc ih =>
    intro ld init
    simp only [List.foldl_cons, List.flatMap_cons, List.foldl_append,
      List.foldl_map]
    exact ih ld _

theorem findOptimal_eq_scan (g : SyncGrid) :
    findOptimal g =
      scanOrder.foldl (fun st p => stepCell g st p.1 p.2) initState := by
  unfold findOptimal scanOrder
  exact foldl_nested (fun st c d => stepCell g st c d) _ _ _

theorem mem_scanOrder (p : Fin 16 × Fin 16) : p ∈ scanOrder := by
  unfold scanOrder
  rw [List.mem_flatMap]
  exact ⟨p.1, List.mem_finRange _, List.mem_map.mpr ⟨p.2, List.mem_finRange _, rfl⟩⟩

theorem pairwise_scanOrder : scanOrder.Pairwise scanlt := by
  unfold scanOrder
  rw [List.flatMap_def, List.pairwise_flatten]
  constructor
  · intro l hl
    rw [List.mem_map] at hl
    obtain ⟨c, _, rfl⟩ := hl
    rw [List.pairwise_map]
    exact (List.pairwise_lt_finRange 16).imp fun hlt => Or.inr ⟨rfl, hlt⟩
  · rw [List.pairwise_map]
    refine (List.pairwise_lt_finRange 16).imp ?_
    intro c₁ c₂ hlt x hx y hy
    rw [List.mem_map] at hx hy
    obtain ⟨d₁, _, rfl⟩ := hx
    obtain ⟨d₂, _, rfl⟩ := hy
    exact Or.inl hlt

theorem scanOrder_decomp_order {l₁ l₂ : List (Fin 16 × Fin 16)}
    {a : Fin 16 × Fin 16} (h : scanOrder = l₁ ++ a :: l₂) :
    (∀ p ∈ l₁, scanlt p a) ∧ ∀ p ∈ l₂, scanlt a p := by
  have hp := pairwise_scanOrder
  rw [h, List.pairwise_append] at hp
  obtain ⟨_, hcons, hcross⟩ := hp
  rw [List.pairwise_cons] at hcons
  exact ⟨fun p hp' => hcross p hp' a (List.mem_cons_self a l₂),
    fun p hp' => hcons.1 p hp'⟩

theorem runLen_add_le (g : SyncGrid) (c : Fin 16) (i : Nat) (hi : i ≤ 16) :
    i + runLenFrom g c i ≤ 16 := by
  rcases Nat.eq_zero_or_pos (runLenFrom g c i) with h0 | hpos
  · omega
  · have hc := cell_true_of_lt_runLen g c (runLenFrom g c i - 1) i (by omega)
    have hlt := cell_lt16 hc
    omega

/-- The selection fold returns the centered setting of the first-in-scan-order
maximal run: if `(C, S, L)` is a run, no run is longer, and every run of the
maximal length `L` starts at or after `(C, S)` in scan order, then the search
ends with clock delay `C`, data delay `S + L / 2` and maximum `L`. -/
theorem findOptimal_firstMaxRun (g : SyncGrid) (C : Fin 16) (S L : Nat)
    (h1 : IsRun g C S L)
    (h2 : ∀ (c : Fin 16) (s l : Nat), IsRun g c s l → l ≤ L)
    (h3 : ∀ (c : Fin 16) (s : Nat), IsRun g c s L → scanFirst C S c s) :
    findOptimal g =
      { clk := (C.val : Int)
        dat := ((S + L / 2 : Nat) : Int)
        maxValid := L } := by
  have hS : S < 16 := (isRun_bounds g C S L h1).1
  have hL1 : 1 ≤ L := h1.1
  have hrlCS : runLenFrom g C S = L := runLen_of_isRun g C S L h1
  obtain ⟨l₁, a, l₂, heq, hlt, hle⟩ :=
    exists_first_max (fun p : Fin 16 × Fin 16 => cellVal g p.1 p.2) scanOrder
      (by decide)
  have hlt' : ∀ p ∈ l₁, cellVal g p.1 p.2 < cellVal g a.1 a.2 := hlt
  have hle' : ∀ p ∈ l₂, cellVal g p.1 p.2 ≤ cellVal g a.1 a.2 := hle
  have hub : ∀ (c d : Fin 16), cellVal g c d ≤ L := cellVal_le g L h2
  have hP0val : cellVal g C ⟨S, hS⟩ = L := hrlCS
  have hP0mem : ((C, ⟨S, hS⟩) : Fin 16 × Fin 16) ∈ l₁ ++ a :: l₂ := by
    rw [← heq]
    exact mem_scanOrder _
  have haL : cellVal g a.1 a.2 = L := by
    have hha : cellVal g a.1 a.2 ≤ L := hub a.1 a.2
    have hge : L ≤ cellVal g a.1 a.2 := by
      rcases List.mem_append.mp hP0mem with hp | hp
      · have h' : cellVal g C ⟨S, hS⟩ < cellVal g a.1 a.2 := hlt' _ hp
        omega
      · rcases List.mem_cons.mp hp with hpa | hp
        · have h' : cellVal g a.1 a.2 = cellVal g C ⟨S, hS⟩ := by rw [← hpa]
          omega
        · have h' : cellVal g C ⟨S, hS⟩ ≤ cellVal g a.1 a.2 := hle' _ hp
          omega
    omega
  have hvalA : runLenFrom g a.1 a.2.val = L := haL
  have hcellA : cell g a.1 a.2.val = true := by
    have h0 := cell_true_of_lt_runLen g a.1 0 a.2.val (by omega)
    simpa using h0
  obtain ⟨s, hs_le, hcs, hstart, hrl⟩ := exists_runStart g a.1 a.2.val hcellA
  have hrunS := isRun_of_start g a.1 s hcs hstart
  have hlenS := h2 a.1 s _ hrunS
  have hseq : s = a.2.val := by omega
  have hrunA : IsRun g a.1 a.2.val L := by
    rw [hseq] at hrunS
    rwa [hvalA] at hrunS
  have hfirst := h3 a.1 a.2.val hrunA
  have hP0a : ((C, ⟨S, hS⟩) : Fin 16 × Fin 16) = a := by
    rcases List.mem_append.mp hP0mem with hp | hp
    · have h' : cellVal g C ⟨S, hS⟩ < cellVal g a.1 a.2 := hlt' _ hp
      omega
    · rcases List.mem_cons.mp hp with hpa | hp
      · exact hpa
      · exfalso
        have horder := (scanOrder_decomp_order heq).2 _ hp
        unfold scanlt at horder
        unfold scanFirst at hfirst
        have hval1 : a.1.val < C.val ∨ (a.1.val = C.val ∧ a.2.val < S) := by
          rcases horder with h' | ⟨h'1, h'2⟩
          · exact Or.inl h'
          · exact Or.inr ⟨by rw [h'1], h'2⟩
        rcases hfirst with h'' | ⟨h''1, h''2⟩ <;> omega
  have ha1 : a.1 = C := by rw [← hP0a]
  have ha2 : a.2.val = S := by rw [← hP0a]
  rw [findOptimal_eq_scan, heq]
  rw [foldl_step_first_max g l₁ l₂ a initState hlt' hle'
    (by simpa [initState, haL] using hL1)]
  rw [haL, ha1, ha2]

/-- C1: for every 16x16 `SyncGrid` with at least one `true` cell, the
delay-scan selection computes a `(clockDelay, dataDelay)` pair such that
the grid cell at exactly that index is `true`. -/
theorem spec_C1_selection_hits_true_cell (g : SyncGrid)
    (hne : ∃ c d, g c d = true) :
    ∃ c d : Fin 16, (findOptimal g).clk = (c.val : Int) ∧
      (findOptimal g).dat = (d.val : Int) ∧ g c d = true := by
  obtain ⟨c₀, d₀, hc₀⟩ := hne
  obtain ⟨l₁, a, l₂, heq, hlt, hle⟩ :=
    exists_first_max (fun p : Fin 16 × Fin 16 => cellVal g p.1 p.2) scanOrder
      (by decide)
  have hlt' : ∀ p ∈ l₁, cellVal g p.1 p.2 < cellVal g a.1 a.2 := hlt
  have hle' : ∀ p ∈ l₂, cellVal g p.1 p.2 ≤ cellVal g a.1 a.2 := hle
  have h₀ : 1 ≤ cellVal g c₀ d₀ :=
    runLen_pos_of_cell g c₀ d₀.val (by rwa [cell_fin])
  have hmem : ((c₀, d₀) : Fin 16 × Fin 16) ∈ l₁ ++ a :: l₂ := by
    rw [← heq]
    exact mem_scanOrder _
  have hM1 : 1 ≤ cellVal g a.1 a.2 := by
    rcases List.mem_append.mp hmem with hp | hp
    · have h' : cellVal g c₀ d₀ < cellVal g a.1 a.2 := hlt' _ hp
      omega
    · rcases List.mem_cons.mp hp with hpa | hp
      · have h' : cellVal g a.1 a.2 = cellVal g c₀ d₀ := by rw [← hpa]
        omega
      · have h' : cellVal g c₀ d₀ ≤ cellVal g a.1 a.2 := hle' _ hp
        omega
  have hfold : findOptimal g =
      { clk := (a.1.val : Int)
        dat := ((a.2.val + cellVal g a.1 a.2 / 2 : Nat) : Int)
        maxValid := cellVal g a.1 a.2 } := by
    rw [findOptimal_eq_scan, heq]
    exact foldl_step_first_max g l₁ l₂ a initState hlt' hle'
      (by simpa [initState] using hM1)
  have hd2 : cellVal g a.1 a.2 / 2 < cellVal g a.1 a.2 :=
    Nat.div_lt_self (by omega) (by omega)
  have hb := runLen_add_le g a.1 a.2.val (by omega)
  have hrl_eq : runLenFrom g a.1 a.2.val = cellVal g a.1 a.2 := rfl
  have hdatlt : a.2.val + cellVal g a.1 a.2 / 2 < 16 := by omega
  have hcell : cell g a.1 (a.2.val + cellVal g a.1 a.2 / 2) = true :=
    cell_true_of_lt_runLen g a.1 _ a.2.val (by omega)
  refine ⟨a.1, ⟨a.2.val + cellVal g a.1 a.2 / 2, hdatlt⟩, ?_, ?_, ?_⟩
  · rw [hfold]
  · rw [hfold]
  · exact (cell_fin g a.1 ⟨_, hdatlt⟩).symm.trans hcell

/-- Witness for C1: a grid with a single `true` cell at row 2, column 7. -/
theorem spec_C1_witness :
    (∃ c d, gridSingle c d = true) ∧
      ∃ c d : Fin 16, (findOptimal gridSingle).clk = (c.val : Int) ∧
        (findOptimal gridSingle).dat = (d.val : Int) ∧ gridSingle c d = true :=
  ⟨⟨2, 7, by decide⟩,
   spec_C1_selection_hits_true_cell gridSingle ⟨2, 7, by decide⟩⟩

/-- C2: if the grid's globally maximal run is unique, of length `L`,
starting at column `S` of row `C` (any `L ≥ 1` qualifies, no minimum
width), the selection returns clock delay `C` and data delay `S + L / 2`
(integer division). -/
theorem spec_C2_centering (g : SyncGrid) (C : Fin 16) (S L : Nat)
    (h1 : IsRun g C S L)
    (h2 : ∀ (c : Fin 16) (s l : Nat), IsRun g c s l → l ≤ L)
    (h3 : ∀ (c : Fin 16) (s : Nat), IsRun g c s L → c = C ∧ s = S) :
    (findOptimal g).clk = (C.val : Int) ∧
      (findOptimal g).dat = ((S + L / 2 : Nat) : Int) := by
  have h3' : ∀ (c : Fin 16) (s : Nat), IsRun g c s L → scanFirst C S c s := by
    intro c s hr
    obtain ⟨hc, hs⟩ := h3 c s hr
    unfold scanFirst
    exact Or.inr ⟨by rw [hc], by omega⟩
  have h := findOptimal_firstMaxRun g C S L h1 h2 h3'
  rw [h]
  exact ⟨rfl, rfl⟩

/-- Witness for C2: the spec's end-to-end scenario — unique maximal run
on row 5, columns 3-9 (length 7), yielding `(5, 3 + 7/2) = (5, 6)`. -/
theorem spec_C2_witness :
    IsRun gridRow5 5 3 7 ∧ (findOptimal gridRow5).clk = 5 ∧
      (findOptimal gridRow5).dat = 6 := by
  have h1 : IsRun gridRow5 5 3 7 := by decide
  have h2 : ∀ (c : Fin 16) (s l : Nat), IsRun gridRow5 c s l → l ≤ 7 :=
    (isRun_bounded_iff gridRow5 fun _ _ l => l ≤ 7).mpr (by decide)
  have h3 : ∀ (c : Fin 16) (s : Nat), IsRun gridRow5 c s 7 → c = 5 ∧ s = 3 := by
    have hb := (isRun_bounded_iff gridRow5
      fun c s l => l = 7 → c = 5 ∧ s = 3).mpr (by decide)
    intro c s hr
    exact hb c s 7 hr rfl
  have hr := spec_C2_centering gridRow5 5 3 7 h1 h2 h3
  refine ⟨h1, ?_, ?_⟩
  · rw [hr.1]
    decide
  · rw [hr.2]
    decide

/-- C3: with two (or more) maximal runs of equal greatest length, the
selection returns the run encountered first in row-major scan order. -/
theorem spec_C3_tie_break (g : SyncGrid) (C : Fin 16) (S L : Nat)
    (D : Fin 16) (T : Nat)
    (h1 : IsRun g C S L) (h1b : IsRun g D T L)
    (hne : ¬(C = D ∧ S = T))
    (h2 : ∀ (c : Fin 16) (s l : Nat), IsRun g c s l → l ≤ L)
    (h3 : ∀ (c : Fin 16) (s : Nat), IsRun g c s L → scanFirst C S c s) :
    (findOptimal g).clk = (C.val : Int) ∧
      (findOptimal g).dat = ((S + L / 2 : Nat) : Int) := by
  have h := findOptimal_firstMaxRun g C S L h1 h2 h3
  rw [h]
  exact ⟨rfl, rfl⟩

/-- Witness for C3: the spec's tie-break example — length-5 runs on row 3
(columns 2-6) and row 9 (columns 0-4); row 3's run is selected, yielding
`(3, 2 + 5/2) = (3, 4)`. -/
theorem spec_C3_witness :
    IsRun gridTie 3 2 5 ∧ IsRun gridTie 9 0 5 ∧
      (findOptimal gridTie).clk = 3 ∧ (findOptimal gridTie).dat = 4 := by
  have h1 : IsRun gridTie 3 2 5 := by decide
  have h1b : IsRun gridTie 9 0 5 := by decide
  have h2 : ∀ (c : Fin 16) (s l : Nat), IsRun gridTie c s l → l ≤ 5 :=
    (isRun_bounded_iff gridTie fun _ _ l => l ≤ 5).mpr (by decide)
  have h3 : ∀ (c : Fin 16) (s : Nat), IsRun gridTie c s 5 → scanFirst 3 2 c s := by
    have hb := (isRun_bounded_iff gridTie
      fun c s l => l = 5 → scanFirst 3 2 c s).mpr (by decide)
    intro c s hr
    exact hb c s 5 hr rfl
  have hr := spec_C3_tie_break gridTie 3 2 5 9 0 h1 h1b (by decide) h2 h3
  refine ⟨h1, h1b, ?_, ?_⟩
  · rw [hr.1]
    decide
  · rw [hr.2]
    decide

/-! ### Trace lemmas -/

theorem mem_probeEvents {reg : Nat} {e : Event} (h : e ∈ probeEvents reg) :
    (∃ v, e = Event.spiWrite reg v) ∨ e = Event.mdelay 10 ∨
      e = Event.csrRead CSR_AD9361_PRBS_RX_ADDR := by
  unfold probeEvents at h
  rw [List.mem_flatten] at h
  obtain ⟨l, hl, hel⟩ := h
  rw [List.mem_map] at hl
  obtain ⟨p, _, rfl⟩ := hl
  simp only [List.mem_cons, List.not_mem_nil, or_false] at hel
  rcases hel with rfl | rfl | rfl
  · exact Or.inl ⟨_, rfl⟩
  · exact Or.inr (Or.inl rfl)
  · exact Or.inr (Or.inr rfl)

theorem mem_reportEvents {isTx : Bool} {st : OptState} {e : Event}
    (h : e ∈ reportEvents isTx st) :
    (∃ c d, e = Event.msgOptimal isTx c d) ∨ e = Event.msgNotFound isTx := by
  unfold reportEvents at h
  split at h
  · simp only [List.mem_cons, List.not_mem_nil, or_false] at h
    exact Or.inl ⟨st.clk, st.dat, h⟩
  · simp only [List.mem_cons, List.not_mem_nil, or_false] at h
    exact Or.inr h

theorem mem_commitEvents {reg : Nat} {st : OptState} {e : Event}
    (h : e ∈ commitEvents reg st) : ∃ v, e = Event.spiWrite reg v := by
  unfold commitEvents at h
  split at h
  · simp only [List.mem_cons, List.not_mem_nil, or_false] at h
    exact ⟨_, h⟩
  · simp at h

theorem mem_delayScanTrace {reg : Nat} {isTx : Bool} {g : SyncGrid} {e : Event}
    (h : e ∈ delayScanTrace reg isTx g) :
    (∃ v, e = Event.spiWrite reg v) ∨ e = Event.mdelay 10 ∨
      e = Event.csrRead CSR_AD9361_PRBS_RX_ADDR ∨
      (∃ c d, e = Event.msgOptimal isTx c d) ∨ e = Event.msgNotFound isTx := by
  unfold delayScanTrace at h
  rcases List.mem_append.mp h with h | h
  · rcases List.mem_append.mp h with h | h
    · rcases mem_probeEvents h with h' | h' | h'
      · exact Or.inl h'
      · exact Or.inr (Or.inl h')
      · exact Or.inr (Or.inr (Or.inl h'))
    · rcases mem_reportEvents h with h' | h'
      · exact Or.inr (Or.inr (Or.inr (Or.inl h')))
      · exact Or.inr (Or.inr (Or.inr (Or.inr h')))
  · exact Or.inl (mem_commitEvents h)

theorem findOptimal_none {g : SyncGrid} (h : ∀ c d, g c d = false) :
    findOptimal g = initState := by
  rw [findOptimal_eq_scan]
  apply foldl_step_no_update
  intro p _
  have h0 : cellVal g p.1 p.2 = 0 := by
    unfold cellVal
    rw [runLenFrom_eq, cell_fin, h p.1 p.2]
    simp
  simp [h0, initState]

/-- C4: on an all-`false` grid the delay-scan engine prints the
no-valid-settings diagnostic, performs no commit write of an optimal
setting, and the calibration continues with the loopback / TX-scan
steps instead of terminating. -/
theorem spec_C4_not_found (rxGrid txGrid : SyncGrid)
    (h : ∀ c d, rxGrid c d = false) :
    reportEvents false (findOptimal rxGrid) = [Event.msgNotFound false] ∧
      commitEvents REG_RX_CLOCK_DATA_DELAY (findOptimal rxGrid) = [] ∧
      prbsCalibrationTrace rxGrid txGrid =
        [Event.csrWrite CSR_AD9361_PRBS_TX_ADDR 0, Event.bistPrbs BIST_INJ_RX]
        ++ probeEvents REG_RX_CLOCK_DATA_DELAY ++ [Event.msgNotFound false]
        ++ [Event.bistLoopback 1, Event.csrWrite CSR_AD9361_PRBS_TX_ADDR 1]
        ++ delayScanTrace REG_TX_CLOCK_DATA_DELAY true txGrid := by
  have hopt := findOptimal_none h
  have hrep : reportEvents false (findOptimal rxGrid) = [Event.msgNotFound false] := by
    rw [hopt]
    unfold reportEvents initState
    rw [if_neg (by simp)]
  have hcom : commitEvents REG_RX_CLOCK_DATA_DELAY (findOptimal rxGrid) = [] := by
    rw [hopt]
    unfold commitEvents initState
    rw [if_neg (by simp)]
  refine ⟨hrep, hcom, ?_⟩
  unfold prbsCalibrationTrace delayScanTrace
  rw [hrep, hcom]
  simp [CSR_AD9361_PRBS_TX_ENABLE_OFFSET]

/-- Witness for C4 at the all-`false` grid. -/
theorem spec_C4_witness :
    (∀ c d, gridNone c d = false) ∧
      reportEvents false (findOptimal gridNone) = [Event.msgNotFound false] ∧
      commitEvents REG_RX_CLOCK_DATA_DELAY (findOptimal gridNone) = [] :=
  ⟨fun _ _ => rfl,
   (spec_C4_not_found gridNone gridNone fun _ _ => rfl).1,
   (spec_C4_not_found gridNone gridNone fun _ _ => rfl).2.1⟩

theorem delayScanTrace_filter_control (reg : Nat) (isTx : Bool) (g : SyncGrid) :
    (delayScanTrace reg isTx g).filter isPrbsControl = [] := by
  rw [List.filter_eq_nil_iff]
  intro e he
  rcases mem_delayScanTrace he with ⟨v, rfl⟩ | rfl | rfl | ⟨c, d, rfl⟩ | rfl <;>
    simp [isPrbsControl]

/-- C5: with the PRBS BIST flag set, the calibration performs exactly, in
this order: disable the FPGA TX-PRBS and enable transceiver RX-PRBS
injection, run the RX delay scan, enable the RX→TX loopback, enable the
FPGA TX-PRBS, run the TX delay scan — and no other PRBS/loopback
reconfiguration happens anywhere (in particular not inside the scans). -/
theorem spec_C5_calibration_order (rxGrid txGrid : SyncGrid) :
    prbsCalibrationTrace rxGrid txGrid =
      [Event.csrWrite CSR_AD9361_PRBS_TX_ADDR 0, Event.bistPrbs BIST_INJ_RX]
      ++ delayScanTrace REG_RX_CLOCK_DATA_DELAY false rxGrid
      ++ [Event.bistLoopback 1, Event.csrWrite CSR_AD9361_PRBS_TX_ADDR 1]
      ++ delayScanTrace REG_TX_CLOCK_DATA_DELAY true txGrid ∧
    (prbsCalibrationTrace rxGrid txGrid).filter isPrbsControl =
      [Event.csrWrite CSR_AD9361_PRBS_TX_ADDR 0, Event.bistPrbs BIST_INJ_RX,
       Event.bistLoopback 1, Event.csrWrite CSR_AD9361_PRBS_TX_ADDR 1] := by
  constructor
  · unfold prbsCalibrationTrace
    simp [CSR_AD9361_PRBS_TX_ENABLE_OFFSET]
  · unfold prbsCalibrationTrace
    rw [List.filter_append, List.filter_append, List.filter_append]
    rw [delayScanTrace_filter_control, delayScanTrace_filter_control]
    simp [isPrbsControl, CSR_AD9361_PRBS_TX_ENABLE_OFFSET,
      CSR_AD9361_PRBS_TX_ADDR, BIST_INJ_RX]

theorem checkKeepRunning_notMem_scan (reg : Nat) (isTx : Bool) (g : SyncGrid) :
    Event.checkKeepRunning ∉ delayScanTrace reg isTx g := by
  intro h
  rcases mem_delayScanTrace h with ⟨v, h'⟩ | h' | h' | ⟨c, d, h'⟩ | h' <;>
    simp at h'

theorem checkKeepRunning_notMem_prbs (rxGrid txGrid : SyncGrid) :
    Event.checkKeepRunning ∉ prbsCalibrationTrace rxGrid txGrid := by
  intro h
  unfold prbsCalibrationTrace at h
  rcases List.mem_append.mp h with h | h
  · rcases List.mem_append.mp h with h | h
    · rcases List.mem_append.mp h with h | h
      · simp at h
      · exact checkKeepRunning_notMem_scan _ _ _ h
    · simp at h
  · exact checkKeepRunning_notMem_scan _ _ _ h

theorem checkKeepRunning_notMem_trace (cfg : RfConfig)
    (rxGrid txGrid : SyncGrid) :
    Event.checkKeepRunning ∉ m2sdrInitTrace cfg rxGrid txGrid := by
  intro h
  unfold m2sdrInitTrace at h
  rcases List.mem_append.mp h with h | h
  · rcases List.mem_append.mp h with h | h
    · rcases List.mem_append.mp h with h | h
      · rcases List.mem_append.mp h with h | h
        · rcases List.mem_append.mp h with h | h
          · simp [configEvents] at h
          · split at h
            · simp at h
            · simp at h
        · split at h
          · simp at h
          · simp at h
      · split at h
        · exact checkKeepRunning_notMem_prbs _ _ h
        · simp at h
    · split at h
      · simp [oversampleEvents] at h
      · simp at h
  · simp at h

/-- Counterexample to C7: at a concrete PRBS-BIST configuration, the
bring-up trace contains no check of the stop-requested flag at all — in
particular none between top-level steps, contradicting the claim that
the flag "is checked between top-level bring-up steps". -/
theorem spec_C7_counterexample :
    Event.checkKeepRunning ∉ m2sdrInitTrace cfgPrbs gridNone gridNone :=
  checkKeepRunning_notMem_trace cfgPrbs gridNone gridNone

/-- C7 (amended): the signal handler sets the stop-requested flag, but
the flag is never consulted anywhere in bring-up — neither between
top-level steps nor inside the scan loops — so an in-flight delay scan
(and the whole bring-up) always runs to completion, because no
cancellation point exists at all. -/
theorem spec_C7_amended (cfg : RfConfig) (rxGrid txGrid : SyncGrid)
    (d : Int) :
    intHandler d keepRunningInit = 0 ∧
      Event.checkKeepRunning ∉ m2sdrInitTrace cfg rxGrid txGrid :=
  ⟨rfl, checkKeepRunning_notMem_trace cfg rxGrid txGrid⟩

theorem txRatesOf_append (l₁ l₂ : List Event) :
    txRatesOf (l₁ ++ l₂) = txRatesOf l₁ ++ txRatesOf l₂ := by
  unfold txRatesOf
  exact List.filterMap_append _ _ _

theorem rxRatesOf_append (l₁ l₂ : List Event) :
    rxRatesOf (l₁ ++ l₂) = rxRatesOf l₁ ++ rxRatesOf l₂ := by
  unfold rxRatesOf
  exact List.filterMap_append _ _ _

theorem attenValsOf_append (l₁ l₂ : List Event) :
    attenValsOf (l₁ ++ l₂) = attenValsOf l₁ ++ attenValsOf l₂ := by
  unfold attenValsOf
  exact List.filterMap_append _ _ _

theorem txRatesOf_scan (reg : Nat) (isTx : Bool) (g : SyncGrid) :
    txRatesOf (delayScanTrace reg isTx g) = [] := by
  rw [txRatesOf, List.filterMap_eq_nil_iff]
  intro e he
  rcases mem_delayScanTrace he with ⟨v, rfl⟩ | rfl | rfl | ⟨c, d, rfl⟩ | rfl <;> rfl

theorem rxRatesOf_scan (reg : Nat) (isTx : Bool) (g : SyncGrid) :
    rxRatesOf (delayScanTrace reg isTx g) = [] := by
  rw [rxRatesOf, List.filterMap_eq_nil_iff]
  intro e he
  rcases mem_delayScanTrace he with ⟨v, rfl⟩ | rfl | rfl | ⟨c, d, rfl⟩ | rfl <;> rfl

theorem attenValsOf_scan (reg : Nat) (isTx : Bool) (g : SyncGrid) :
    attenValsOf (delayScanTrace reg isTx g) = [] := by
  rw [attenValsOf, List.filterMap_eq_nil_iff]
  intro e he
  rcases mem_delayScanTrace he with ⟨v, rfl⟩ | rfl | rfl | ⟨c, d, rfl⟩ | rfl <;> rfl

theorem txRatesOf_prbs (rxGrid txGrid : SyncGrid) :
    txRatesOf (prbsCalibrationTrace rxGrid txGrid) = [] := by
  unfold prbsCalibrationTrace
  rw [txRatesOf_append, txRatesOf_append, txRatesOf_append,
    txRatesOf_scan, txRatesOf_scan]
  rfl

theorem rxRatesOf_prbs (rxGrid txGrid : SyncGrid) :
    rxRatesOf (prbsCalibrationTrace rxGrid txGrid) = [] := by
  unfold prbsCalibrationTrace
  rw [rxRatesOf_append, rxRatesOf_append, rxRatesOf_append,
    rxRatesOf_scan, rxRatesOf_scan]
  rfl

theorem attenValsOf_prbs (rxGrid txGrid : SyncGrid) :
    attenValsOf (prbsCalibrationTrace rxGrid txGrid) = [] := by
  unfold prbsCalibrationTrace
  rw [attenValsOf_append, attenValsOf_append, attenValsOf_append,
    attenValsOf_scan, attenValsOf_scan]
  rfl

/-- C6: the sample rate handed to both the TX and the RX
sampling-frequency operations is exactly `R / 2` (unsigned integer
division) when oversampling is enabled, and exactly `R` otherwise —
and each operation is invoked exactly once per bring-up. -/
theorem spec_C6_oversample_halving (cfg : RfConfig) (rxGrid txGrid : SyncGrid)
    (h32 : cfg.samplerate < 2 ^ 32) :
    txRatesOf (m2sdrInitTrace cfg rxGrid txGrid) =
      [if cfg.enable_oversample then cfg.samplerate / 2 else cfg.samplerate] ∧
    rxRatesOf (m2sdrInitTrace cfg rxGrid txGrid) =
      [if cfg.enable_oversample then cfg.samplerate / 2 else cfg.samplerate] := by
  constructor
  · unfold m2sdrInitTrace
    rw [txRatesOf_append, txRatesOf_append, txRatesOf_append, txRatesOf_append,
      txRatesOf_append]
    rw [apply_ite txRatesOf, apply_ite txRatesOf, apply_ite txRatesOf,
      apply_ite txRatesOf]
    rw [txRatesOf_prbs]
    by_cases ho : cfg.enable_oversample <;> by_cases h8 : cfg.enable_8bit_mode <;>
      simp [configEvents, txRatesOf, oversampleEvents, programmedSamplerate,
        apply_ite, ho, h8]
  · unfold m2sdrInitTrace
    rw [rxRatesOf_append, rxRatesOf_append, rxRatesOf_append, rxRatesOf_append,
      rxRatesOf_append]
    rw [apply_ite rxRatesOf, apply_ite rxRatesOf, apply_ite rxRatesOf,
      apply_ite rxRatesOf]
    rw [rxRatesOf_prbs]
    by_cases ho : cfg.enable_oversample <;> by_cases h8 : cfg.enable_8bit_mode <;>
      simp [configEvents, rxRatesOf, oversampleEvents, programmedSamplerate,
        apply_ite, ho, h8]

/-- Witness for C6: oversampling with an odd rate 61440001 programs
`61440001 / 2 = 30720000` on both directions. -/
theorem spec_C6_witness :
    txRatesOf (m2sdrInitTrace cfgOversample gridNone gridNone) = [30720000] ∧
      rxRatesOf (m2sdrInitTrace cfgOversample gridNone gridNone) = [30720000] := by
  have h := spec_C6_oversample_halving cfgOversample gridNone gridNone (by decide)
  refine ⟨?_, ?_⟩
  · rw [h.1]
    decide
  · rw [h.2]
    decide

/-- C9: the attenuation value handed to the transceiver's TX attenuation
operation is `-G * 1000` milli-dB for a requested TX gain of `G` dB, and
the operation is invoked exactly once per bring-up.  The bound keeps the
`int64_t` product free of overflow. -/
theorem spec_C9_atten_sign (cfg : RfConfig) (rxGrid txGrid : SyncGrid)
    (h64 : -(2 : Int) ^ 63 ≤ -cfg.tx_gain * 1000 ∧
      -cfg.tx_gain * 1000 < 2 ^ 63) :
    attenValsOf (m2sdrInitTrace cfg rxGrid txGrid) = [-cfg.tx_gain * 1000] := by
  unfold m2sdrInitTrace
  rw [attenValsOf_append, attenValsOf_append, attenValsOf_append,
    attenValsOf_append, attenValsOf_append]
  rw [apply_ite attenValsOf, apply_ite attenValsOf, apply_ite attenValsOf,
    apply_ite attenValsOf]
  rw [attenValsOf_prbs]
  by_cases h8 : cfg.enable_8bit_mode <;>
    simp [configEvents, attenValsOf, oversampleEvents, apply_ite, h8]

/-- Witness for C9: a requested TX gain of 10 dB programs -10000 mdB. -/
theorem spec_C9_witness :
    attenValsOf (m2sdrInitTrace cfgPrbs gridNone gridNone) = [-10000] := by
  have h := spec_C9_atten_sign cfgPrbs gridNone gridNone (by decide)
  rw [h]
  decide

theorem foldl_lastWrite_skip (reg : Nat) :
    ∀ (l : List Event) (acc : Option Int),
      (∀ v, Event.spiWrite reg v ∉ l) →
      l.foldl (lastWriteStep reg) acc = acc := by
  intro l
  induction l with
  | nil => intro acc _; rfl
  | cons e es ih =>
    intro acc h
    rw [List.foldl_cons]
    have hstep : lastWriteStep reg acc e = acc := by
      cases e <;> try rfl
      case spiWrite r v =>
        show (if r = reg then some v else acc) = acc
        rw [if_neg]
        intro hr
        subst hr
        exact h v (List.mem_cons_self _ _)
    rw [hstep]
    exact ih acc fun v hv => h v (List.mem_cons_of_mem _ hv)

/-- C10: once the RX optimal pair has been committed, the rest of the
calibration never writes the RX delay register again (the TX scan and
TX commit only target the TX delay register), so at the end of the
calibration the RX delay register holds exactly the committed RX
optimal delay word. -/
theorem spec_C10_rx_setting_preserved (rxGrid txGrid : SyncGrid)
    (h : (findOptimal rxGrid).clk ≠ -1 ∧ (findOptimal rxGrid).dat ≠ -1) :
    (∀ v, Event.spiWrite REG_RX_CLOCK_DATA_DELAY v ∉
        delayScanTrace REG_TX_CLOCK_DATA_DELAY true txGrid) ∧
      lastDelayWrite REG_RX_CLOCK_DATA_DELAY
          (prbsCalibrationTrace rxGrid txGrid) =
        some (delayWord (findOptimal rxGrid).clk (findOptimal rxGrid).dat) := by
  have hnot : ∀ v, Event.spiWrite REG_RX_CLOCK_DATA_DELAY v ∉
      delayScanTrace REG_TX_CLOCK_DATA_DELAY true txGrid := by
    intro v hv
    rcases mem_delayScanTrace hv with ⟨w, h'⟩ | h' | h' | ⟨c, d, h'⟩ | h' <;>
      simp [REG_RX_CLOCK_DATA_DELAY, REG_TX_CLOCK_DATA_DELAY] at h'
  refine ⟨hnot, ?_⟩
  have hcommit : commitEvents REG_RX_CLOCK_DATA_DELAY (findOptimal rxGrid) =
      [Event.spiWrite REG_RX_CLOCK_DATA_DELAY
        (delayWord (findOptimal rxGrid).clk (findOptimal rxGrid).dat)] := by
    unfold commitEvents
    rw [if_pos h]
  unfold prbsCalibrationTrace lastDelayWrite
  rw [List.foldl_append, foldl_lastWrite_skip _ _ _ hnot]
  rw [List.foldl_append, foldl_lastWrite_skip _ _ _ (by intro v; simp)]
  rw [List.foldl_append]
  unfold delayScanTrace
  rw [List.foldl_append, hcommit]
  simp [lastWriteStep, REG_RX_CLOCK_DATA_DELAY]

/-- Witness for C10: an RX grid with one true cell (optimal found) and
an all-`false` TX grid. -/
theorem spec_C10_witness :
    lastDelayWrite REG_RX_CLOCK_DATA_DELAY
        (prbsCalibrationTrace gridSingle gridNone) =
      some (delayWord (findOptimal gridSingle).clk
        (findOptimal gridSingle).dat) :=
  (spec_C10_rx_setting_preserved gridSingle gridNone (by decide)).2

/-- C8: with the device open, the SPI transfer supports exactly the
shapes `(n_tx, n_rx) = (2, 1)` (register read) and `(3, 0)` (register
write); every other shape makes the process exit immediately with
status 1 (no retry, no other outcome). -/
theorem spec_C8_spi_shapes (txbuf : List Nat) (n_tx n_rx : Nat) :
    (spi_write_then_read true txbuf n_tx n_rx = SpiOutcome.procExit 1 ↔
      ¬((n_tx = 2 ∧ n_rx = 1) ∨ (n_tx = 3 ∧ n_rx = 0))) ∧
    (n_tx = 2 ∧ n_rx = 1 →
      spi_write_then_read true txbuf n_tx n_rx =
        SpiOutcome.spiRead ((txbuf.getD 0 0) <<< 8 ||| txbuf.getD 1 0)) ∧
    (n_tx = 3 ∧ n_rx = 0 →
      spi_write_then_read true txbuf n_tx n_rx =
        SpiOutcome.spiWriteOp ((txbuf.getD 0 0) <<< 8 ||| txbuf.getD 1 0)
          (txbuf.getD 2 0)) := by
  unfold spi_write_then_read
  rw [if_neg (by simp)]
  by_cases h1 : n_tx = 2 ∧ n_rx = 1
  · rw [if_pos h1]
    refine ⟨⟨fun he => absurd he (by simp), fun hn => absurd (Or.inl h1) hn⟩,
      fun _ => rfl, fun h2 => ?_⟩
    exact absurd h1 (by omega)
  · rw [if_neg h1]
    by_cases h2 : n_tx = 3 ∧ n_rx = 0
    · rw [if_pos h2]
      refine ⟨⟨fun he => absurd he (by simp), fun hn => absurd (Or.inr h2) hn⟩,
        fun h1' => absurd h1' h1, fun _ => rfl⟩
    · rw [if_neg h2]
      refine ⟨⟨fun _ hor => ?_, fun _ => rfl⟩,
        fun h1' => absurd h1' h1, fun h2' => absurd h2' h2⟩
      rcases hor with h' | h'
      · exact h1 h'
      · exact h2 h'

/-- Witness for C8: the shape `(4, 4)` is rejected with exit status 1. -/
theorem spec_C8_witness :
    spi_write_then_read true [1, 2, 3] 4 4 = SpiOutcome.procExit 1 :=
  (spec_C8_spi_shapes [1, 2, 3] 4 4).1.mpr (by decide)

end M2sdrRf
